import Mathlib

/-!
Verification development for the streams library: a shallow embedding of the
topology-executing engine (record construction, topology builder, processor
context, task layer, stream lifecycle) together with theorems about the
claims of its specification.

The embedding follows the task-map design of the source (topology.go,
node.go, context.go, task.go, stream.go and the record file using wyhash
over the encoded key). Pointers become indices into a heap of nodes,
channels become explicit queues, and atomic counters become integers
threaded through the state.
-/

set_option autoImplicit false

namespace Streams

/-- Byte strings are modelled as lists of naturals (each byte below 256;
no claim relies on the bound). -/
abbrev Bytes := List Nat

/-- Modelled from the external dependency github.com/dgryski/go-wyhash used
by NewRecord: a 64-bit hash of a byte string with a seed. The engine relies
only on it being a deterministic pure function of the bytes and the seed
(the spec calls the hash function a detail that must merely be stable), so
an executable 64-bit FNV-style fold stands in for the wyhash mixing. -/
def wyhashHash (data : Bytes) (seed : Nat) : Nat :=
  data.foldl (fun h b => ((h ^^^ b) * 1099511628211) % 2 ^ 64)
    ((seed + 14695981039346656037) % 2 ^ 64)

/-- Inner loop of the jump consistent hash, modelled from the external
dependency github.com/dgryski/go-jump used by nodeTasks.forwardFrom.
The fuel argument bounds the iteration count (the candidate bucket strictly
increases each round, so buckets rounds suffice); integer division stands
in for the float64 step of the original. The engine relies only on the
result being a deterministic pure function of (key, buckets). -/
def jumpLoop (buckets : Nat) : Nat → Nat → Nat → Nat
  | 0, _, j => j
  | fuel + 1, key, j =>
    let key2 := (key * 2862933555777941757 + 1) % 2 ^ 64
    let j2 := (j + 1) * (2 ^ 31 / (key2 / 2 ^ 33 + 1))
    if j2 < buckets then jumpLoop buckets fuel key2 j2 else j

/-- jump.Hash(key, numBuckets): the bucket chosen for a 64-bit key among
numBuckets buckets (0 when there are no buckets; forwardFrom only calls it
with a positive bucket count). -/
def jumpHash (key : Nat) (buckets : Nat) : Nat :=
  if buckets = 0 then 0 else jumpLoop buckets buckets (key % 2 ^ 64) 0

/-- An Encoder value: the record key or value. Encode returns bytes and an
error; NewRecord ignores the error, so the encoded bytes are carried as a
field (the interface is assumed deterministic) together with the ignored
error component. -/
structure Encoder where
  encodeBytes : Bytes
  encodeErr : Option String := none
deriving DecidableEq

/-- Record: a single record within a stream (topic, optional key and value,
time, acknowledgement, content-derived 64-bit id). The ack callback is
modelled as an opaque handle since no claim inspects its behaviour. -/
structure Record where
  id : Nat := 0
  topic : String := ""
  key : Option Encoder := none
  value : Option Encoder := none
  time : Nat := 0
  ackHandle : Option Nat := none
deriving DecidableEq

/-- NewRecord fills the record and computes the id by hashing the encoded
key when the key is non-nil, else the encoded value when that is non-nil;
with both nil the id keeps its zero value. -/
def NewRecord (topic : String) (key value : Option Encoder) (ts : Nat)
    (ack : Option Nat) : Record :=
  let base : Record :=
    { topic := topic, key := key, value := value, time := ts, ackHandle := ack }
  match key with
  | some k => { base with id := wyhashHash k.encodeBytes 0 }
  | none =>
    match value with
    | some v => { base with id := wyhashHash v.encodeBytes 0 }
    | none => base

/-- IsValid: a record is valid iff it has a key or a value, and a topic. -/
def Record.IsValid (r : Record) : Bool :=
  (r.key.isSome || r.value.isSome) && r.topic != ""

/-- Node type discriminant (types/types.go). The stream discriminant of the
source is unused by the engine and omitted. -/
inductive NType
  | source
  | processor
  | sink
  | store
deriving DecidableEq

/-- A node of the topology (node.go). The processor instance that init
binds is modelled as an opaque handle, as is the supplier; successors and
predecessors are heap pointers. -/
structure GNode where
  name : String := ""
  typ : NType := NType.source
  supplier : Nat := 0
  processorInst : Option Nat := none
  successors : List Nat := []
  predecessors : List Nat := []
deriving DecidableEq

/-- The node heap: Go pointers become indices into this list; allocation
appends a cell. -/
abbrev Heap := List GNode

/-- Dereference a node pointer (out-of-range pointers yield the zero node;
the topology builder only stores in-range pointers). -/
def nodeAt (h : Heap) (p : Nat) : GNode :=
  h.getD p {}

/-- Mutate the heap cell at a pointer. -/
def updateNode (h : Heap) (p : Nat) (f : GNode → GNode) : Heap :=
  h.set p (f (nodeAt h p))

/-- A topology (topology.go): ordered node list, source roots, and the
name-to-store-node map. All three hold heap pointers. -/
structure Topo where
  nodes : List Nat := []
  roots : List Nat := []
  stores : List (String × Nat) := []
deriving DecidableEq

/-- Typed errors of the builder, context and task layer. -/
inductive TErr
  | emptyName
  | invalidTopology
  | predecessorNotFound
  | nodeNotFound
  | storeNotFound
  | invalidForward
  | invalidNodeType
deriving DecidableEq

/-- topology.getNode: linear scan of the node list for the first node with
the given name, returning its pointer. -/
def getNodePtr (h : Heap) (t : Topo) (name : String) : Option Nat :=
  t.nodes.find? (fun p => (nodeAt h p).name == name)

/-- The predecessor loop of topology.addNode: for each named predecessor in
order, fail on a self-edge, a missing predecessor, or a Sink predecessor;
otherwise link the predecessor to the new node (mutating the predecessor
cell) and the new node back. On failure the heap mutations already made
remain, exactly as in the source where predecessor.successors is appended
through a pointer before a later predecessor is examined. -/
def addPreds (t : Topo) (name : String) (ptr : Nat) :
    Heap → List String → Heap × Option TErr
  | h, [] => (h, none)
  | h, pn :: rest =>
    if name = pn then (h, some TErr.invalidTopology)
    else
      match getNodePtr h t pn with
      | none => (h, some TErr.predecessorNotFound)
      | some pp =>
        if (nodeAt h pp).typ = NType.sink then (h, some TErr.invalidTopology)
        else
          let h2 := updateNode h pp
            (fun n => { n with successors := n.successors ++ [ptr] })
          let h3 := updateNode h2 ptr
            (fun n => { n with predecessors := n.predecessors ++ [pp] })
          addPreds t name ptr h3 rest

/-- topology.addNode: allocate the node cell, run the synchronous checks
(empty name, duplicate name, processor or sink without predecessors), link
the predecessors, and only then append the pointer to nodes (and to roots
for a source). Errors return the topology unchanged; heap mutations made
before a predecessor error persist. -/
def addNode (h : Heap) (t : Topo) (name : String) (typ : NType)
    (supplier : Nat) (preds : List String) : Heap × Topo × Option TErr :=
  let ptr := h.length
  let h1 := h ++ [{ name := name, typ := typ, supplier := supplier }]
  if name = "" then (h1, t, some TErr.emptyName)
  else if (getNodePtr h1 t name).isSome then (h1, t, some TErr.invalidTopology)
  else if (typ = NType.processor ∨ typ = NType.sink) ∧ preds = [] then
    (h1, t, some TErr.invalidTopology)
  else
    match addPreds t name ptr h1 preds with
    | (h2, some e) => (h2, t, some e)
    | (h2, none) =>
      (h2,
        { t with
          nodes := t.nodes ++ [ptr]
          roots := if typ = NType.source then t.roots ++ [ptr] else t.roots },
        none)

/-- topology.addSource. -/
def addSource (h : Heap) (t : Topo) (name : String) (supplier : Nat) :
    Heap × Topo × Option TErr :=
  addNode h t name NType.source supplier []

/-- topology.addProcessor. -/
def addProcessor (h : Heap) (t : Topo) (name : String) (supplier : Nat)
    (preds : List String) : Heap × Topo × Option TErr :=
  addNode h t name NType.processor supplier preds

/-- topology.addSink. -/
def addSink (h : Heap) (t : Topo) (name : String) (supplier : Nat)
    (preds : List String) : Heap × Topo × Option TErr :=
  addNode h t name NType.sink supplier preds

/-- topology.addStore. -/
def addStore (h : Heap) (t : Topo) (name : String) (supplier : Nat) :
    Heap × Topo × Option TErr :=
  addNode h t name NType.store supplier []

/-- The loop of topology.clone: re-register every node of the original, in
order, into the fresh topology, naming its predecessors; abort on the first
error (the source returns nil for the clone then). -/
def cloneLoop : Heap → Topo → List Nat → Heap × Option Topo
  | h, top, [] => (h, some top)
  | h, top, p :: rest =>
    let n := nodeAt h p
    let predNames := n.predecessors.map (fun q => (nodeAt h q).name)
    match addNode h top n.name n.typ n.supplier predNames with
    | (h2, top2, none) => cloneLoop h2 top2 rest
    | (h2, _, some _) => (h2, none)

/-- topology.clone: the clone starts with the stores map of the original
(shared by reference in the source) and re-registers every node of the
original node list from its supplier. -/
def clone (h : Heap) (t : Topo) : Heap × Option Topo :=
  cloneLoop h { stores := t.stores } t.nodes

/-- Configuration (config.go): a path-indexed tree of values, modelled as
an association of paths to integer values, which is all the engine reads.
A missing path yields a Config holding nil data. -/
structure Config where
  entries : List (List String × Int) := []
deriving DecidableEq

/-- Config.Get followed by Config.Int: the Int accessor returns the given
default when the looked-up item is nil (absent path), per config.go. -/
def Config.intAt (c : Config) (path : List String) (d : Int) : Int :=
  match c.entries.find? (fun e => e.1 == path) with
  | none => d
  | some e => e.2

/-- One bounded record channel of the task layer (a buffer): its capacity
as configured at allocation, and its queued records. Blocking on a full
buffer is a liveness matter and is not modelled; the queue is unbounded. -/
structure TaskBuffer where
  size : Nat
  queue : List Record := []
deriving DecidableEq

/-- The tasks of one node (task.go): the ordered buffer list, one worker
per buffer. The list length is the node's current scale. -/
structure Tasks where
  buffers : List TaskBuffer := []
deriving DecidableEq

/-- nodeTasks: the per-node task map, keyed by node pointer. -/
abbrev TasksMap := List (Nat × Tasks)

/-- Map lookup nt[node]; none models the nil value a Go map yields for a
missing key. -/
def lookupTasks (m : TasksMap) (p : Nat) : Option Tasks :=
  (m.find? (fun e => e.1 == p)).map (fun e => e.2)

/-- Map insert or update nt[node] = ts, modelled as a shadowing prepend:
lookup takes the most recent binding, which matches the overwrite semantics
of a Go map assignment. -/
def insertTasks (m : TasksMap) (p : Nat) (ts : Tasks) : TasksMap :=
  (p, ts) :: m

/-- Lock operations on the read/write lock guarding a node's task list. -/
inductive LockEv
  | lock
  | unlock
  | rlock
  | runlock
deriving DecidableEq

/-- nodeTasks.setScale on one node's tasks, together with the trace of lock
operations the source performs on the task-list lock: st.Lock() on entry
and the deferred st.RUnlock() at return (task.go). Growing appends
scale - currScale fresh channels of the configured buffer size (each paired
with a spawned worker, whose draining loop is modelled at the dispatch
level); shrinking closes the tail channels and drops them from the list. -/
def setScale (cfg : Config) (nodeName : String) (ts : Tasks) (scale : Nat) :
    Tasks × List LockEv :=
  let currScale := ts.buffers.length
  let ts2 :=
    if currScale < scale then
      let bufferSize := (cfg.intAt [nodeName, "tasks", "buffer_size"] 0).toNat
      { buffers :=
          ts.buffers ++ List.replicate (scale - currScale) { size := bufferSize } }
    else if scale < currScale then
      { buffers := ts.buffers.take scale }
    else ts
  (ts2, [LockEv.lock, LockEv.runlock])

/-- State of a sync.RWMutex as observed by a single-threaded trace. -/
structure RWMutexSt where
  writerHeld : Bool := false
  readers : Nat := 0
deriving DecidableEq

/-- One lock operation against the RWMutex. none models a fault: acquiring
a lock that can never be granted in a single-threaded trace (self
deadlock), releasing a write lock not held, or releasing a read lock when
no read lock is held, which the Go runtime reports as a fatal error
(sync: RUnlock of unlocked RWMutex). -/
def lockStep (s : RWMutexSt) : LockEv → Option RWMutexSt
  | LockEv.lock =>
    if s.writerHeld || 0 < s.readers then none
    else some { s with writerHeld := true }
  | LockEv.unlock =>
    if s.writerHeld then some { s with writerHeld := false } else none
  | LockEv.rlock =>
    if s.writerHeld then none else some { s with readers := s.readers + 1 }
  | LockEv.runlock =>
    if 0 < s.readers then some { s with readers := s.readers - 1 } else none

/-- Run a trace of lock operations from a lock state. -/
def runLockTrace (s : RWMutexSt) : List LockEv → Option RWMutexSt
  | [] => some s
  | e :: rest =>
    match lockStep s e with
    | none => none
    | some s2 => runLockTrace s2 rest

/-- The per-node body of Stream.initTasks: skip a node without successors
or of Sink type; otherwise insert an entry and scale it to the configured
count (default 0 when the key is absent). The source inserts the empty
tasks value and then calls setScale on it through the map; the insertion
of the scaled value is the composition of the two. -/
def initTasksStep (cfg : Config) (h : Heap) (m : TasksMap) (p : Nat) :
    TasksMap :=
  if (nodeAt h p).successors.isEmpty || (nodeAt h p).typ == NType.sink then m
  else
    insertTasks m p
      (setScale cfg (nodeAt h p).name { buffers := [] }
        ((cfg.intAt [(nodeAt h p).name, "tasks", "count"] 0).toNat)).1

/-- Stream.initTasks: create a task entry for every node of the topology
that has successors and is not a Sink. -/
def initTasks (cfg : Config) (h : Heap) (t : Topo) : TasksMap :=
  t.nodes.foldl (initTasksStep cfg h) []

/-- Runtime state of a started stream: the node heap and topology, the
per-node activation counters (indexed by node pointer; the source keeps an
atomic int32 in each context), the task map, and a log of the Process
invocations performed, in order. -/
structure SState where
  heap : Heap
  topo : Topo := {}
  act : List Int := []
  tasks : TasksMap := []
  plog : List (Nat × Record) := []
deriving DecidableEq

/-- The activation counter of a node's context. -/
def actOf (st : SState) (p : Nat) : Int :=
  st.act.getD p 0

/-- processorContext.IsActive: counter strictly positive. -/
def isActive (st : SState) (p : Nat) : Bool :=
  decide (0 < actOf st p)

/-- processorContext.activate: atomically add one. -/
def activate (st : SState) (p : Nat) : SState :=
  { st with act := st.act.set p (actOf st p + 1) }

/-- processorContext.deactivate: atomically subtract one. -/
def deactivate (st : SState) (p : Nat) : SState :=
  { st with act := st.act.set p (actOf st p - 1) }

/-- A successor's Process invocation as the engine observes it: the record
handed to user code is logged. The user code's own forwards re-enter the
dispatch layer; its effect on activation counters is analysed separately
with the effect abstracted (see forwardBracketRun). -/
def processCall (st : SState) (p : Nat) (r : Record) : SState :=
  { st with plog := st.plog ++ [(p, r)] }

/-- Node.forward: for each successor in declaration order, activate its
context, invoke its Process with the record, then deactivate. -/
def nodeForward (st : SState) (p : Nat) (r : Record) : SState :=
  (nodeAt st.heap p).successors.foldl
    (fun s q => deactivate (processCall (activate s q) q r) q) st

/-- Enqueue a record onto slot j of a node's buffers and store the updated
tasks back in the map (the channel send of forwardFrom). -/
def enqueueAt (st : SState) (p : Nat) (ts : Tasks) (j : Nat) (r : Record) :
    SState :=
  let b := ts.buffers.getD j { size := 0 }
  let ts2 : Tasks :=
    { buffers := ts.buffers.set j { b with queue := b.queue ++ [r] } }
  { st with tasks := insertTasks st.tasks p ts2 }

/-- nodeTasks.forwardFrom: look up the node's tasks (none models the nil
dereference panic when the node has no map entry); with a positive bucket
count enqueue onto the jump-hash slot of the record id, else forward inline
through Node.forward on the calling thread. The paired RLock and RUnlock of
the dispatch path are well bracketed in the source and not traced here. -/
def forwardFrom (st : SState) (p : Nat) (r : Record) : Option SState :=
  match lookupTasks st.tasks p with
  | none => none
  | some ts =>
    let buckets := ts.buffers.length
    if 0 < buckets then some (enqueueAt st p ts (jumpHash r.id buckets) r)
    else some (nodeForward st p r)

/-- processorContext.Forward: fail with ErrInvalidForward when the context
is inactive, or the node has no successors, or the node is a Sink; else
hand the record to the task layer. The result pairs the state after the
call with the returned error; none models a runtime panic inside
forwardFrom. -/
def contextForward (st : SState) (p : Nat) (r : Record) :
    Option (SState × Option TErr) :=
  if !isActive st p
      || ((nodeAt st.heap p).successors.isEmpty
          || (nodeAt st.heap p).typ == NType.sink) then
    some (st, some TErr.invalidForward)
  else
    (forwardFrom st p r).map (fun st2 => (st2, none))

/-- processorContext.Store: look up the name in the topology's store map;
a missing name fails with ErrStoreNotFound, a present one returns the bound
store node. -/
def contextStore (st : SState) (name : String) : Except TErr Nat :=
  match st.topo.stores.find? (fun e => e.1 == name) with
  | none => Except.error TErr.storeNotFound
  | some e => Except.ok e.2

/-- Observable outcome of the phase-2 per-node loop of Stream.Close after a
number of iterations: still inside the loop, or returned with the error of
a failed Close call. There is no constructor for a successful exit because
the loop in the source has none: its body is spin-or-close with no break. -/
inductive CloseLoopSt
  | running (closeCalls : Nat)
  | errored (closeCalls : Nat)
deriving DecidableEq

/-- The inner loop that Stream.Close runs for a non-source Processor node
implementing Closer (stream.go): each iteration either observes an active
context and yields, or calls closer.Close() and returns its error when that
is non-nil. active i gives the IsActive observation of iteration i, and
closeErr n the error of the n-th Close call (none for nil); the arguments
are the iteration index, the count of Close calls so far, and the fuel
bounding how many iterations are examined. -/
def processorCloseLoop (active : Nat → Bool) (closeErr : Nat → Option String) :
    Nat → Nat → Nat → CloseLoopSt
  | 0, _, calls => CloseLoopSt.running calls
  | fuel + 1, i, calls =>
    if active i then processorCloseLoop active closeErr fuel (i + 1) calls
    else
      match closeErr calls with
      | some _ => CloseLoopSt.errored (calls + 1)
      | none => processorCloseLoop active closeErr fuel (i + 1) (calls + 1)

/-- Node.forward with the counter effect of user Process code abstracted:
peff j a is the activation-counter vector after the successor j's Process
returns, given the vector a at its invocation. For each successor in
declaration order the loop activates, invokes Process, and deactivates;
the run returns the final counters and, per invocation, the successor, the
counter value just before its activate, the IsActive observation during
Process, and the counter value just after its deactivate. -/
def forwardBracketRun (peff : Nat → (Nat → Int) → (Nat → Int)) :
    (Nat → Int) → List Nat → (Nat → Int) × List (Nat × Int × Bool × Int)
  | act, [] => (act, [])
  | act, j :: rest =>
    let before := act j
    let act1 := fun k => if k = j then before + 1 else act k
    let duringActive := decide (0 < act1 j)
    let act2 := peff j act1
    let act3 := fun k => if k = j then act2 j - 1 else act2 k
    let tail := forwardBracketRun peff act3 rest
    (tail.1, (j, before, duringActive, act3 j) :: tail.2)

/-! ### Helper lemmas about the heap -/

/-- Appending a cell does not change the nodes below the old length. -/
theorem nodeAt_append_lt (h : Heap) (c : GNode) (q : Nat) (hq : q < h.length) :
    nodeAt (h ++ [c]) q = nodeAt h q := by
  simp [nodeAt, List.getD, List.getElem?_append_left hq]

/-- The appended cell sits at the old length. -/
theorem nodeAt_append_self (h : Heap) (c : GNode) :
    nodeAt (h ++ [c]) h.length = c := by
  simp [nodeAt, List.getD, List.getElem?_append_right (Nat.le_refl h.length)]

/-- Mutating one cell leaves every other cell unchanged. -/
theorem nodeAt_updateNode_ne (h : Heap) (p q : Nat) (f : GNode → GNode)
    (hpq : p ≠ q) :
    nodeAt (updateNode h p f) q = nodeAt h q := by
  simp [nodeAt, updateNode, List.getD, List.getElem?_set_ne hpq]

/-- The identity-like fields of a node: name, type, supplier, and bound
processor instance (everything except the link lists). -/
def gfields (n : GNode) : String × NType × Nat × Option Nat :=
  (n.name, n.typ, n.supplier, n.processorInst)

/-- A link-only mutation (one that preserves gfields) preserves the
gfields of every cell. -/
theorem gfields_updateNode (h : Heap) (p q : Nat) (f : GNode → GNode)
    (hf : ∀ n, gfields (f n) = gfields n) :
    gfields (nodeAt (updateNode h p f) q) = gfields (nodeAt h q) := by
  by_cases hq : p = q
  · subst hq
    by_cases hp : p < h.length
    · have hx : nodeAt (updateNode h p f) p = f (nodeAt h p) := by
        simp only [nodeAt, updateNode, List.getD]
        rw [List.get?_set_of_lt _ _ hp]
        simp
      rw [hx, hf]
    · have hx : updateNode h p f = h :=
        List.set_eq_of_length_le (Nat.le_of_not_lt hp)
      rw [hx]
  · rw [nodeAt_updateNode_ne h p q f hq]

/-! ### Helper lemmas about the task map -/

/-- A fresh binding is found by lookup. -/
theorem lookupTasks_insert_self (m : TasksMap) (p : Nat) (ts : Tasks) :
    lookupTasks (insertTasks m p ts) p = some ts := by
  simp [lookupTasks, insertTasks, List.find?]

/-- Inserting any binding preserves the presence of a key. -/
theorem lookupTasks_insert_isSome (m : TasksMap) (p q : Nat) (ts : Tasks)
    (hs : (lookupTasks m p).isSome = true) :
    (lookupTasks (insertTasks m q ts) p).isSome = true := by
  by_cases hpq : q = p
  · subst hpq
    rw [lookupTasks_insert_self]
    rfl
  · have hbeq : (q == p) = false := by simp [hpq]
    have hsame : lookupTasks (insertTasks m q ts) p = lookupTasks m p := by
      simp [lookupTasks, insertTasks, List.find?, hbeq]
    rw [hsame]
    exact hs

/-- Folding initTasksStep over a node list covers every listed node that
has successors and is not a Sink, and preserves the keys already present. -/
theorem initTasksFold_covers (cfg : Config) (h : Heap) (l : List Nat)
    (m : TasksMap) (p : Nat)
    (hbase : (lookupTasks m p).isSome = true
      ∨ (p ∈ l ∧ (nodeAt h p).successors ≠ []
          ∧ (nodeAt h p).typ ≠ NType.sink)) :
    (lookupTasks (l.foldl (initTasksStep cfg h) m) p).isSome = true := by
  induction l generalizing m with
  | nil =>
    rcases hbase with hb | hb
    · exact hb
    · exact absurd hb.1 (List.not_mem_nil p)
  | cons q rest ih =>
    apply ih
    rcases hbase with hb | hb
    · left
      unfold initTasksStep
      by_cases hc : ((nodeAt h q).successors.isEmpty
          || (nodeAt h q).typ == NType.sink) = true
      · rw [if_pos hc]; exact hb
      · rw [if_neg hc]
        exact lookupTasks_insert_isSome _ _ _ _ hb
    · rcases List.mem_cons.mp hb.1 with hq | hq
      · left
        unfold initTasksStep
        rw [← hq]
        have hc : ((nodeAt h p).successors.isEmpty
            || (nodeAt h p).typ == NType.sink) = false := by
          simp [List.isEmpty_iff, hb.2.1, hb.2.2]
        rw [hc]
        simp only [Bool.false_eq_true, if_false]
        rw [lookupTasks_insert_self]
        rfl
      · right
        exact ⟨hq, hb.2⟩

/-! ### Claim theorems -/

/-- Claim C2. Refuted as stated (code bug): the phase-2 loop of
Stream.Close has no exit on a successful Close. With the node's context
permanently inactive and a Close that always returns nil, the loop is
still running after any number of iterations, and it has called Close once
per iteration instead of exactly once: after fuel iterations the loop state
is running with calls plus fuel Close calls performed. -/
theorem closeLoop_never_exits_on_success (fuel i calls : Nat) :
    processorCloseLoop (fun _ => false) (fun _ => none) fuel i calls
      = CloseLoopSt.running (calls + fuel) := by
  induction fuel generalizing i calls with
  | zero => rfl
  | succ n ih =>
    have hstep : processorCloseLoop (fun _ => false) (fun _ => none)
        (n + 1) i calls
        = processorCloseLoop (fun _ => false) (fun _ => none)
            n (i + 1) (calls + 1) := rfl
    rw [hstep, ih]
    have : calls + 1 + n = calls + (n + 1) := by omega
    rw [this]

/-- Claim C5. Refuted as stated (code bug): every setScale call performs
exactly the lock operations Lock then the deferred RUnlock, so it releases
a read lock that was never acquired; replaying that trace on an unlocked
read/write mutex faults (the Go runtime reports RUnlock of unlocked
RWMutex), whereas the well-bracketed write-lock trace the claim describes
replays cleanly. -/
theorem setScale_runlock_unpaired (cfg : Config) (name : String)
    (ts : Tasks) (scale : Nat) :
    (setScale cfg name ts scale).2 = [LockEv.lock, LockEv.runlock]
    ∧ runLockTrace {} (setScale cfg name ts scale).2 = none
    ∧ runLockTrace {} [LockEv.lock, LockEv.unlock] = some {} :=
  ⟨rfl, rfl, rfl⟩

/-- Claim C6. Refuted as stated (code bug): addStore succeeds and appends
the store node to the topology's node list, but addNode never inserts the
node into the stores map, so the context's Store lookup fails with
ErrStoreNotFound even for the name just added. -/
theorem store_lookup_fails_after_addStore :
    (addStore [] {} "s" 7).2.2 = none
    ∧ (addStore [] {} "s" 7).2.1.nodes = [0]
    ∧ (nodeAt (addStore [] {} "s" 7).1 0).typ = NType.store
    ∧ (nodeAt (addStore [] {} "s" 7).1 0).name = "s"
    ∧ (addStore [] {} "s" 7).2.1.stores = []
    ∧ contextStore { heap := (addStore [] {} "s" 7).1
                     topo := (addStore [] {} "s" 7).2.1 } "s"
        = Except.error TErr.storeNotFound := by
  refine ⟨by decide, by decide, by decide, by decide, by decide, rfl⟩

/-- A two-node topology, source to sink, built by the builder: the input
for evaluating the task defaults of claim C8. -/
def c8Build : Heap × Topo × Option TErr :=
  addSink (addSource [] {} "src" 0).1 (addSource [] {} "src" 0).2.1
    "snk" 1 ["src"]

/-- Claim C8. Refuted as stated (code bug): with no tasks configuration
present, setScale allocates channels with buffer size 0, not 1024 (the
source passes a literal 0 default to the config getter), and initTasks
leaves every eligible node at scale 0, not 1 (same literal 0 default for
the count), so the source node of a source-to-sink topology ends up with
an empty buffer list. -/
theorem task_defaults_zero_not_documented (name : String) :
    (setScale {} name { buffers := [] } 1).1
        = { buffers := [{ size := 0, queue := [] }] }
    ∧ ({ buffers := [{ size := 0, queue := [] }] } : Tasks)
        ≠ { buffers := [{ size := 1024, queue := [] }] }
    ∧ c8Build.2.2 = none
    ∧ initTasks {} c8Build.1 c8Build.2.1 = [(0, { buffers := [] })] := by
  refine ⟨rfl, by decide, by decide, by decide⟩

/-- First step of the claim C9 counterexample: a topology with one source
named s. -/
def c9S1 : Heap × Topo × Option TErr :=
  addSource [] {} "s" 0

/-- Second step of the claim C9 counterexample: adding a processor whose
predecessor list names s and then a missing node. -/
def c9S2 : Heap × Topo × Option TErr :=
  addProcessor c9S1.1 c9S1.2.1 "p" 1 ["s", "missing"]

/-- Claim C9 counterexample: the failing addProcessor call returns the
predecessor-not-found error, yet the successor list of the existing source
node has been extended from empty to the dangling pointer of the node that
was never appended - the builder state is not left unchanged. -/
theorem addNode_failure_mutates_predecessor :
    c9S2.2.2 = some TErr.predecessorNotFound
    ∧ (nodeAt c9S1.1 0).successors = []
    ∧ (nodeAt c9S2.1 0).successors = [1]
    ∧ c9S1.2.1.nodes = [0] := by
  decide

/-- The claim C7 counterexample input: a heap holding one store node that
carries a bound processor instance, and a topology registering it. -/
def c7Heap : Heap :=
  [{ name := "st", typ := NType.store, supplier := 3, processorInst := some 5 }]

/-- The topology over c7Heap. -/
def c7Topo : Topo :=
  { nodes := [0] }

/-- Claim C7 counterexample: cloning a topology whose only node is a store
node re-registers that store node from its supplier like every other node.
The clone's node list holds the freshly allocated pointer 1, which is not a
node of the original, and the fresh cell carries no processor instance
although the original store node does - so the clone's store node is not
the existing store node and its store state is not shared. -/
theorem clone_reregisters_store_node :
    (clone c7Heap c7Topo).2 = some { nodes := [1], roots := [], stores := [] }
    ∧ (nodeAt (clone c7Heap c7Topo).1 1).typ = NType.store
    ∧ (1 ∉ c7Topo.nodes)
    ∧ (nodeAt (clone c7Heap c7Topo).1 1).processorInst = none
    ∧ (nodeAt c7Heap 0).processorInst = some 5 := by
  decide

/-- Claim C1, confirmed: two records built by NewRecord whose keys encode
to identical bytes receive identical ids, and on a node whose task list
has a positive length (the task scale) forwardFrom enqueues both records
onto the very same buffer slot, the jump hash of the shared id by the
scale. -/
theorem record_id_and_slot_deterministic
    (t1 t2 : String) (k1 k2 : Encoder) (v1 v2 : Option Encoder)
    (ts1 ts2 : Nat) (a1 a2 : Option Nat)
    (st : SState) (p : Nat) (ts : Tasks)
    (hk : k1.encodeBytes = k2.encodeBytes)
    (hl : lookupTasks st.tasks p = some ts)
    (hpos : 0 < ts.buffers.length) :
    (NewRecord t1 (some k1) v1 ts1 a1).id = (NewRecord t2 (some k2) v2 ts2 a2).id
    ∧ forwardFrom st p (NewRecord t1 (some k1) v1 ts1 a1)
        = some (enqueueAt st p ts
            (jumpHash (NewRecord t1 (some k1) v1 ts1 a1).id ts.buffers.length)
            (NewRecord t1 (some k1) v1 ts1 a1))
    ∧ forwardFrom st p (NewRecord t2 (some k2) v2 ts2 a2)
        = some (enqueueAt st p ts
            (jumpHash (NewRecord t1 (some k1) v1 ts1 a1).id ts.buffers.length)
            (NewRecord t2 (some k2) v2 ts2 a2)) := by
  have hid : (NewRecord t1 (some k1) v1 ts1 a1).id
      = (NewRecord t2 (some k2) v2 ts2 a2).id := by
    show wyhashHash k1.encodeBytes 0 = wyhashHash k2.encodeBytes 0
    rw [hk]
  refine ⟨hid, ?_, ?_⟩
  · simp [forwardFrom, hl, hpos]
  · simp [forwardFrom, hl, hpos, hid]

/-- The key bytes of the claim C1 witness records. -/
def c1K : Encoder :=
  { encodeBytes := [1, 2] }

/-- The witness tasks of claim C1: a node at scale two. -/
def c1Tasks : Tasks :=
  { buffers := [{ size := 4 }, { size := 4 }] }

/-- The witness state of claim C1. -/
def c1St : SState :=
  { heap := [], tasks := [(0, c1Tasks)] }

/-- First witness record of claim C1: key only. -/
def c1R1 : Record :=
  NewRecord "a" (some c1K) none 3 none

/-- Second witness record of claim C1: same key bytes, different topic,
value, time and ack. -/
def c1R2 : Record :=
  NewRecord "b" (some c1K) (some { encodeBytes := [9] }) 4 (some 1)

/-- Witness for claim C1 at concrete records and a concrete scale-two task
list. -/
theorem record_id_and_slot_deterministic_witness :
    c1R1.id = c1R2.id
    ∧ forwardFrom c1St 0 c1R1
        = some (enqueueAt c1St 0 c1Tasks (jumpHash c1R1.id 2) c1R1)
    ∧ forwardFrom c1St 0 c1R2
        = some (enqueueAt c1St 0 c1Tasks (jumpHash c1R1.id 2) c1R2) :=
  record_id_and_slot_deterministic "a" "b" c1K c1K none
    (some { encodeBytes := [9] }) 3 4 none (some 1) c1St 0 c1Tasks
    rfl rfl (by decide)

/-- Claim C3, confirmed: Forward returns ErrInvalidForward with the state
unchanged exactly when the context is inactive, the node has no
successors, or the node is a Sink; and exactly in the complementary case
the call is the forwardFrom dispatch with a nil error (a missing task
entry then surfaces as the modelled panic, not as an error return). -/
theorem forward_gate_characterisation (st : SState) (p : Nat) (r : Record) :
    (contextForward st p r = some (st, some TErr.invalidForward)
        ↔ (isActive st p = false
            ∨ (nodeAt st.heap p).successors = []
            ∨ (nodeAt st.heap p).typ = NType.sink))
    ∧ ((isActive st p = true
        ∧ (nodeAt st.heap p).successors ≠ []
        ∧ (nodeAt st.heap p).typ ≠ NType.sink)
        ↔ contextForward st p r
            = Option.map (fun s2 => (s2, none)) (forwardFrom st p r)) := by
  have hgate : ((!isActive st p
        || ((nodeAt st.heap p).successors.isEmpty
            || (nodeAt st.heap p).typ == NType.sink)) = true)
      ↔ (isActive st p = false
          ∨ (nodeAt st.heap p).successors = []
          ∨ (nodeAt st.heap p).typ = NType.sink) := by
    simp [List.isEmpty_iff]
  by_cases hg : (!isActive st p
      || ((nodeAt st.heap p).successors.isEmpty
          || (nodeAt st.heap p).typ == NType.sink)) = true
  · have hres : contextForward st p r = some (st, some TErr.invalidForward) := by
      simp only [contextForward, if_pos hg]
    constructor
    · exact ⟨fun _ => hgate.mp hg, fun _ => hres⟩
    · constructor
      · intro hcon
        rcases hgate.mp hg with h | h | h
        · rw [hcon.1] at h; cases h
        · exact absurd h hcon.2.1
        · exact absurd h hcon.2.2
      · intro hmap
        exfalso
        rw [hres] at hmap
        cases hF : forwardFrom st p r with
        | none => rw [hF] at hmap; simp at hmap
        | some s2 => rw [hF] at hmap; simp at hmap
  · have hres : contextForward st p r
        = Option.map (fun s2 => (s2, none)) (forwardFrom st p r) := by
      simp only [contextForward, if_neg hg]
    constructor
    · constructor
      · intro heq
        rw [hres] at heq
        exfalso
        cases hF : forwardFrom st p r with
        | none => rw [hF] at heq; simp at heq
        | some s2 => rw [hF] at heq; simp at heq
      · intro hd
        exact absurd (hgate.mpr hd) hg
    · constructor
      · intro _
        exact hres
      · intro _
        have hng := hg
        rw [hgate] at hng
        push_neg at hng
        refine ⟨?_, hng.2.1, hng.2.2⟩
        cases hb : isActive st p with
        | false => exact absurd hb hng.1
        | true => rfl

/-- The witness state of claim C3: a single sink node with an active
context. -/
def c3St : SState :=
  { heap := [{ name := "snk", typ := NType.sink }], act := [1] }

/-- Witness for claim C3 at a concrete sink node and record. -/
theorem forward_gate_characterisation_witness :
    (contextForward c3St 0 {} = some (c3St, some TErr.invalidForward)
        ↔ (isActive c3St 0 = false
            ∨ (nodeAt c3St.heap 0).successors = []
            ∨ (nodeAt c3St.heap 0).typ = NType.sink))
    ∧ ((isActive c3St 0 = true
        ∧ (nodeAt c3St.heap 0).successors ≠ []
        ∧ (nodeAt c3St.heap 0).typ ≠ NType.sink)
        ↔ contextForward c3St 0 {}
            = Option.map (fun s2 => (s2, none)) (forwardFrom c3St 0 {})) :=
  forward_gate_characterisation c3St 0 {}

/-- Claim C4, confirmed: in the successor loop of Node.forward, with the
counter effect of each Process call abstracted into a function that
returns its own context counter unchanged and keeps counters nonnegative,
every invocation observes IsActive true during Process and finds the
counter back at its prior value right after the deactivate. -/
theorem forward_activation_bracketing
    (peff : Nat → (Nat → Int) → (Nat → Int)) (act : Nat → Int)
    (succs : List Nat)
    (hpres : ∀ j a, peff j a j = a j)
    (hnn : ∀ j a, (∀ k, 0 ≤ a k) → ∀ k, 0 ≤ peff j a k)
    (hact : ∀ k, 0 ≤ act k) :
    ((forwardBracketRun peff act succs).2).all
        (fun obs => obs.2.2.1 && (obs.2.2.2 == obs.2.1)) = true := by
  induction succs generalizing act with
  | nil => rfl
  | cons j rest ih =>
    simp only [forwardBracketRun, List.all_cons, Bool.and_eq_true]
    refine ⟨?_, ?_⟩
    · simp only [Bool.and_eq_true, decide_eq_true_eq, beq_iff_eq, if_true,
        hpres]
      have := hact j
      exact ⟨by omega, by omega⟩
    · apply ih
      intro k
      by_cases hk : k = j
      · subst hk
        simp [hpres]
        have := hact k
        omega
      · simp only [if_neg hk]
        apply hnn
        intro k2
        by_cases hk2 : k2 = j
        · subst hk2
          simp only [if_pos rfl]
          have := hact k2
          omega
        · simp only [if_neg hk2]
          exact hact k2

/-- Witness for claim C4: the identity Process effect over two successors
starting from zero counters. -/
theorem forward_activation_bracketing_witness :
    ((forwardBracketRun (fun _ a => a) (fun _ => 0) [1, 2]).2).all
        (fun obs => obs.2.2.1 && (obs.2.2.2 == obs.2.1)) = true :=
  forward_activation_bracketing (fun _ a => a) (fun _ => 0) [1, 2]
    (fun _ _ => rfl) (fun _ _ hnn k => hnn k) (fun _ => le_refl 0)

/-- Claim C10, confirmed: after initTasks, every node of the topology that
is not a Sink and has at least one successor owns a task-map entry, and
therefore Forward on such a node never hits the nil-map-entry dereference
inside forwardFrom, whatever the activation state and the record. -/
theorem initTasks_covers_forward_nodes
    (cfg : Config) (h : Heap) (t : Topo) (act : List Int)
    (plog : List (Nat × Record)) (p : Nat)
    (hmem : p ∈ t.nodes)
    (hsucc : (nodeAt h p).successors ≠ [])
    (hsink : (nodeAt h p).typ ≠ NType.sink) :
    (lookupTasks (initTasks cfg h t) p).isSome = true
    ∧ ∀ r, contextForward
        { heap := h, topo := t, act := act
          tasks := initTasks cfg h t, plog := plog } p r ≠ none := by
  have hcov : (lookupTasks (initTasks cfg h t) p).isSome = true := by
    apply initTasksFold_covers
    right
    exact ⟨hmem, hsucc, hsink⟩
  refine ⟨hcov, ?_⟩
  intro r
  unfold contextForward
  split
  · simp
  · obtain ⟨ts, hts⟩ := Option.isSome_iff_exists.mp hcov
    have hts2 : lookupTasks
        ({ heap := h, topo := t, act := act
           tasks := initTasks cfg h t, plog := plog } : SState).tasks p
        = some ts := hts
    simp only [forwardFrom, hts2]
    split <;> simp

/-- The witness topology of claim C10: one source with one sink successor. -/
def c10Build : Heap × Topo × Option TErr :=
  addSink (addSource [] {} "src" 0).1 (addSource [] {} "src" 0).2.1
    "snk" 1 ["src"]

/-- Witness for claim C10 on the source node of a source-to-sink topology. -/
theorem initTasks_covers_forward_nodes_witness :
    (lookupTasks (initTasks {} c10Build.1 c10Build.2.1) 0).isSome = true
    ∧ ∀ r, contextForward
        { heap := c10Build.1, topo := c10Build.2.1, act := [1]
          tasks := initTasks {} c10Build.1 c10Build.2.1, plog := [] } 0 r
        ≠ none :=
  initTasks_covers_forward_nodes {} c10Build.1 c10Build.2.1 [1] [] 0
    (by decide) (by decide) (by decide)

/-! ### The amended claim C9: typed errors and preservation of the node,
root and store lists, stated against the pre-call topology -/

/-- The typed error the amended claim C9 expects from the predecessor loop,
determined from the pre-call heap and topology alone, with the checks in
the order the builder performs them: self-edge, then missing predecessor,
then Sink predecessor, per named predecessor in order. -/
def claimedPredErr (h : Heap) (t : Topo) (nm : String) :
    List String → Option TErr
  | [] => none
  | pn :: rest =>
    if nm = pn then some TErr.invalidTopology
    else
      match getNodePtr h t pn with
      | none => some TErr.predecessorNotFound
      | some pp =>
        if (nodeAt h pp).typ = NType.sink then some TErr.invalidTopology
        else claimedPredErr h t nm rest

/-- The typed error the amended claim C9 expects from addNode, determined
from the pre-call heap and topology alone: empty name, then duplicate
name, then processor or sink without predecessors, then the predecessor
loop. -/
def claimedAddNodeErr (h : Heap) (t : Topo) (nm : String) (typ : NType)
    (preds : List String) : Option TErr :=
  if nm = "" then some TErr.emptyName
  else if (getNodePtr h t nm).isSome then some TErr.invalidTopology
  else if (typ = NType.processor ∨ typ = NType.sink) ∧ preds = [] then
    some TErr.invalidTopology
  else claimedPredErr h t nm preds

/-- A name scan gives the same result on two heaps that agree on the names
of the scanned pointers. -/
theorem find?_name_congr (h h' : Heap) (l : List Nat) (s : String)
    (hagree : ∀ p ∈ l, (nodeAt h' p).name = (nodeAt h p).name) :
    l.find? (fun p => (nodeAt h' p).name == s)
      = l.find? (fun p => (nodeAt h p).name == s) := by
  induction l with
  | nil => rfl
  | cons a l ih =>
    simp only [List.find?]
    rw [hagree a (List.mem_cons_self a l)]
    cases hc : ((nodeAt h a).name == s) with
    | true => rfl
    | false => exact ih (fun p hp => hagree p (List.mem_cons_of_mem a hp))

/-- getNode gives the same pointer on two heaps that agree on the names of
the topology's nodes. -/
theorem getNodePtr_congr (h h' : Heap) (t : Topo) (s : String)
    (hagree : ∀ p ∈ t.nodes, (nodeAt h' p).name = (nodeAt h p).name) :
    getNodePtr h' t s = getNodePtr h t s :=
  find?_name_congr h h' t.nodes s hagree

/-- Appending a successor link preserves the gfields of every cell. -/
theorem gfields_addSucc (h : Heap) (pp ptr q : Nat) :
    gfields (nodeAt (updateNode h pp
        (fun n => { n with successors := n.successors ++ [ptr] })) q)
      = gfields (nodeAt h q) :=
  gfields_updateNode h pp q _ (fun _ => rfl)

/-- Appending a predecessor link preserves the gfields of every cell. -/
theorem gfields_addPred (h : Heap) (ptr pp q : Nat) :
    gfields (nodeAt (updateNode h ptr
        (fun n => { n with predecessors := n.predecessors ++ [pp] })) q)
      = gfields (nodeAt h q) :=
  gfields_updateNode h ptr q _ (fun _ => rfl)

/-- The predecessor loop only rewires links: the gfields of every cell are
unchanged, error or not. -/
theorem addPreds_gfields (t : Topo) (nm : String) (ptr : Nat) (h : Heap)
    (preds : List String) (q : Nat) :
    gfields (nodeAt (addPreds t nm ptr h preds).1 q)
      = gfields (nodeAt h q) := by
  induction preds generalizing h with
  | nil => rfl
  | cons pn rest ih =>
    simp only [addPreds]
    split
    · rfl
    · split
      · rfl
      · split
        · rfl
        · rw [ih, gfields_addPred, gfields_addSucc]

/-- Equal gfields give equal names. -/
theorem gfields_name (n m : GNode) (h : gfields n = gfields m) :
    n.name = m.name :=
  congrArg (fun x => x.1) h

/-- Equal gfields give equal types. -/
theorem gfields_typ (n m : GNode) (h : gfields n = gfields m) :
    n.typ = m.typ :=
  congrArg (fun x => x.2.1) h

/-- The predecessor loop returns exactly the claimed typed error: the
interleaved link mutations never change the names and types the checks
read, so the error is the one determined by the pre-call topology. -/
theorem addPreds_err (t : Topo) (nm : String) (ptr : Nat) (h0 h : Heap)
    (preds : List String)
    (hna : ∀ q ∈ t.nodes, (nodeAt h q).name = (nodeAt h0 q).name)
    (hta : ∀ q ∈ t.nodes, (nodeAt h q).typ = (nodeAt h0 q).typ) :
    (addPreds t nm ptr h preds).2 = claimedPredErr h0 t nm preds := by
  induction preds generalizing h with
  | nil => rfl
  | cons pn rest ih =>
    simp only [addPreds, claimedPredErr]
    by_cases hself : nm = pn
    · rw [if_pos hself, if_pos hself]
    · rw [if_neg hself, if_neg hself]
      have hgp : getNodePtr h t pn = getNodePtr h0 t pn :=
        getNodePtr_congr h0 h t pn hna
      rw [hgp]
      cases hg : getNodePtr h0 t pn with
      | none => rfl
      | some pp =>
        have hppmem : pp ∈ t.nodes := List.mem_of_find?_eq_some hg
        have htpp : (nodeAt h pp).typ = (nodeAt h0 pp).typ := hta pp hppmem
        simp only [htpp]
        by_cases hsink : (nodeAt h0 pp).typ = NType.sink
        · rw [if_pos hsink, if_pos hsink]
        · rw [if_neg hsink, if_neg hsink]
          apply ih
          · intro q hq
            have g1 := gfields_addPred (updateNode h pp
              (fun n => { n with successors := n.successors ++ [ptr] }))
              ptr pp q
            have g2 := gfields_addSucc h pp ptr q
            have hn := gfields_name _ _ (g1.trans g2)
            rw [hn]
            exact hna q hq
          · intro q hq
            have g1 := gfields_addPred (updateNode h pp
              (fun n => { n with successors := n.successors ++ [ptr] }))
              ptr pp q
            have g2 := gfields_addSucc h pp ptr q
            have ht := gfields_typ _ _ (g1.trans g2)
            rw [ht]
            exact hta q hq

/-- addNode returns exactly the claimed typed error, stated against the
pre-call heap and topology - the freshly appended cell never shadows a
scanned name because all topology pointers sit below the old length. -/
theorem addNode_err_eq (h : Heap) (t : Topo) (nm : String) (typ : NType)
    (sup : Nat) (preds : List String)
    (hwf : ∀ p ∈ t.nodes, p < h.length) :
    (addNode h t nm typ sup preds).2.2 = claimedAddNodeErr h t nm typ preds := by
  simp only [addNode, claimedAddNodeErr]
  have hagree : ∀ p ∈ t.nodes,
      (nodeAt (h ++ [{ name := nm, typ := typ, supplier := sup }]) p).name
        = (nodeAt h p).name := by
    intro p hp
    rw [nodeAt_append_lt h _ p (hwf p hp)]
  by_cases h1 : nm = ""
  · rw [if_pos h1, if_pos h1]
  · rw [if_neg h1, if_neg h1]
    have hgn : getNodePtr (h ++ [{ name := nm, typ := typ, supplier := sup }])
        t nm = getNodePtr h t nm :=
      getNodePtr_congr h _ t nm hagree
    rw [hgn]
    by_cases h2 : (getNodePtr h t nm).isSome = true
    · rw [if_pos h2, if_pos h2]
    · rw [if_neg h2, if_neg h2]
      by_cases h3 : (typ = NType.processor ∨ typ = NType.sink) ∧ preds = []
      · rw [if_pos h3, if_pos h3]
      · rw [if_neg h3, if_neg h3]
        have hap := addPreds_err t nm h.length h
          (h ++ [{ name := nm, typ := typ, supplier := sup }]) preds
          hagree
          (by
            intro q hq
            rw [nodeAt_append_lt h _ q (hwf q hq)])
        cases happ : addPreds t nm h.length
            (h ++ [{ name := nm, typ := typ, supplier := sup }]) preds with
        | mk h2' me =>
          rw [happ] at hap
          cases me with
          | none => simpa using hap
          | some e => simpa using hap

/-- On any error, addNode returns the topology argument itself: the node,
root and store lists are untouched (the heap links may not be). -/
theorem addNode_error_keeps_topo (h : Heap) (t : Topo) (nm : String)
    (typ : NType) (sup : Nat) (preds : List String)
    (he : (addNode h t nm typ sup preds).2.2 ≠ none) :
    (addNode h t nm typ sup preds).2.1 = t := by
  revert he
  simp only [addNode]
  split
  · intro _; rfl
  · split
    · intro _; rfl
    · split
      · intro _; rfl
      · split
        · intro _; rfl
        · intro hcon
          exact absurd rfl hcon

/-- Claim C9, amended: every violating add call fails with the matching
typed error of the first violated check (in the builder's check order) and
appends nothing to the node, root or store lists; however, successor and
predecessor heap links already written for predecessors processed earlier
in the same call are not rolled back (the counterexample exhibits this
residue). -/
theorem addNode_matching_error_lists_preserved
    (h : Heap) (t : Topo) (nm : String) (typ : NType) (sup : Nat)
    (preds : List String)
    (hwf : ∀ p ∈ t.nodes, p < h.length) :
    (addNode h t nm typ sup preds).2.2 = claimedAddNodeErr h t nm typ preds
    ∧ ((addNode h t nm typ sup preds).2.2 ≠ none
        → (addNode h t nm typ sup preds).2.1 = t) :=
  ⟨addNode_err_eq h t nm typ sup preds hwf,
   addNode_error_keeps_topo h t nm typ sup preds⟩

/-- Witness for the amended claim C9 at the counterexample input: the
failing call reports predecessor-not-found, the claimed error for that
input, and returns the topology lists unchanged. -/
theorem addNode_matching_error_lists_preserved_witness :
    (addNode c9S1.1 c9S1.2.1 "p" NType.processor 1 ["s", "missing"]).2.2
        = claimedAddNodeErr c9S1.1 c9S1.2.1 "p" NType.processor
            ["s", "missing"]
    ∧ ((addNode c9S1.1 c9S1.2.1 "p" NType.processor 1 ["s", "missing"]).2.2
          ≠ none
        → (addNode c9S1.1 c9S1.2.1 "p" NType.processor 1
            ["s", "missing"]).2.1 = c9S1.2.1) :=
  addNode_matching_error_lists_preserved c9S1.1 c9S1.2.1 "p"
    NType.processor 1 ["s", "missing"] (by decide)

/-! ### The amended claim C7: clone shares the stores map and re-registers
every node, store nodes included, from its supplier -/

/-- The predecessor loop preserves the heap length: it only rewrites
existing cells. -/
theorem addPreds_length (t : Topo) (nm : String) (ptr : Nat) (h : Heap)
    (preds : List String) :
    (addPreds t nm ptr h preds).1.length = h.length := by
  induction preds generalizing h with
  | nil => rfl
  | cons pn rest ih =>
    simp only [addPreds]
    split
    · rfl
    · split
      · rfl
      · split
        · rfl
        · rw [ih]
          simp [updateNode]

/-- The predecessor loop mutates only cells of the topology's node list
and the freshly allocated cell. -/
theorem addPreds_untouched (t : Topo) (nm : String) (ptr : Nat) (h : Heap)
    (preds : List String) (q : Nat) (hq : q ∉ t.nodes) (hptr : q ≠ ptr) :
    nodeAt (addPreds t nm ptr h preds).1 q = nodeAt h q := by
  induction preds generalizing h with
  | nil => rfl
  | cons pn rest ih =>
    simp only [addPreds]
    split
    · rfl
    · split
      · rfl
      · next pp heq =>
        split
        · rfl
        · rw [ih]
          have hpp : pp ∈ t.nodes := List.mem_of_find?_eq_some heq
          have hne1 : pp ≠ q := fun hcon => hq (hcon ▸ hpp)
          have hne2 : ptr ≠ q := fun hcon => hptr hcon.symm
          rw [nodeAt_updateNode_ne _ _ _ _ hne2,
            nodeAt_updateNode_ne _ _ _ _ hne1]

/-- A successful addNode appends exactly one node pointer, namely the old
heap length; the stores map is untouched, the heap grows by one cell whose
gfields are the given name, type and supplier with no processor instance,
gfields of all old cells survive, and cells outside the topology's node
list are fully unchanged. -/
theorem addNode_success_shape (hA : Heap) (tA : Topo) (nm : String)
    (ty : NType) (sup : Nat) (preds : List String) (h' : Heap) (t' : Topo)
    (hsucc : addNode hA tA nm ty sup preds = (h', t', none)) :
    t'.nodes = tA.nodes ++ [hA.length]
    ∧ t'.stores = tA.stores
    ∧ h'.length = hA.length + 1
    ∧ gfields (nodeAt h' hA.length) = (nm, ty, sup, none)
    ∧ (∀ q, q < hA.length → gfields (nodeAt h' q) = gfields (nodeAt hA q))
    ∧ (∀ q, q < hA.length → q ∉ tA.nodes → nodeAt h' q = nodeAt hA q) := by
  revert hsucc
  simp only [addNode]
  split
  · intro hcon
    exact absurd (congrArg (fun x => x.2.2) hcon) (by simp)
  · split
    · intro hcon
      exact absurd (congrArg (fun x => x.2.2) hcon) (by simp)
    · split
      · intro hcon
        exact absurd (congrArg (fun x => x.2.2) hcon) (by simp)
      · split
        · intro hcon
          exact absurd (congrArg (fun x => x.2.2) hcon) (by simp)
        · next h2 happ =>
          intro hok
          have hh : h2 = h' := by
            have := congrArg (fun x => x.1) hok
            simpa using this
          have ht : t' = { tA with
              nodes := tA.nodes ++ [hA.length]
              roots := if ty = NType.source then tA.roots ++ [hA.length]
                else tA.roots } := by
            have := congrArg (fun x => x.2.1) hok
            simpa using this.symm
          have h21 : (addPreds tA nm hA.length
              (hA ++ [{ name := nm, typ := ty, supplier := sup }]) preds).1
              = h' := by
            rw [happ, hh]
          subst hh
          constructor
          · rw [ht]
          constructor
          · rw [ht]
          constructor
          · rw [← h21, addPreds_length]
            simp
          constructor
          · rw [← h21, addPreds_gfields, nodeAt_append_self]
            rfl
          constructor
          · intro q hq
            rw [← h21, addPreds_gfields, nodeAt_append_lt _ _ _ hq]
          · intro q hq hmem
            rw [← h21,
              addPreds_untouched _ _ _ _ _ _ hmem (Nat.ne_of_lt hq),
              nodeAt_append_lt _ _ _ hq]

/-- The invariant of the clone loop: re-registering the remaining original
nodes preserves the stores map, appends one fresh cell per node in order,
copies name, type and supplier from the original cells (never touched by
the loop because all clone pointers sit at or above the original length),
and leaves every fresh cell without a processor instance. -/
theorem cloneLoop_spec (h0 : Heap) (rest : List Nat) :
    ∀ (hA : Heap) (tA : Topo) (h2 : Heap) (t2 : Topo),
    cloneLoop hA tA rest = (h2, some t2) →
    (∀ p ∈ rest, p < h0.length) →
    (∀ q, q < h0.length → nodeAt hA q = nodeAt h0 q) →
    (∀ p ∈ tA.nodes, h0.length ≤ p) →
    h0.length ≤ hA.length →
    t2.stores = tA.stores
    ∧ t2.nodes.length = tA.nodes.length + rest.length
    ∧ (∀ i, i < rest.length →
        h0.length ≤ t2.nodes.getD (tA.nodes.length + i) 0
        ∧ gfields (nodeAt h2 (t2.nodes.getD (tA.nodes.length + i) 0))
            = ((nodeAt h0 (rest.getD i 0)).name,
               (nodeAt h0 (rest.getD i 0)).typ,
               (nodeAt h0 (rest.getD i 0)).supplier, none))
    ∧ (∀ i, i < tA.nodes.length → t2.nodes.getD i 0 = tA.nodes.getD i 0)
    ∧ (∀ q, q < hA.length → gfields (nodeAt h2 q) = gfields (nodeAt hA q)) := by
  induction rest with
  | nil =>
    intro hA tA h2 t2 hrun _ _ _ _
    have hh : hA = h2 := congrArg Prod.fst hrun
    have ht : some tA = some t2 := congrArg Prod.snd hrun
    have ht2 : tA = t2 := by injection ht
    subst hh
    subst ht2
    refine ⟨rfl, rfl, ?_, ?_, ?_⟩
    · intro i hi
      exact absurd hi (Nat.not_lt_zero i)
    · intro i _
      rfl
    · intro q _
      rfl
  | cons p rest' ih =>
    intro hA tA h2 t2 hrun hrest hI1 hI2 hI3
    have hplt : p < h0.length := hrest p (List.mem_cons_self p rest')
    have hnp : nodeAt hA p = nodeAt h0 p := hI1 p hplt
    revert hrun
    simp only [cloneLoop]
    cases hadd : addNode hA tA (nodeAt hA p).name (nodeAt hA p).typ
        (nodeAt hA p).supplier
        ((nodeAt hA p).predecessors.map (fun q => (nodeAt hA q).name)) with
    | mk h' rest2 =>
      cases rest2 with
      | mk t' me =>
        cases me with
        | some e =>
          intro hcon
          exact absurd (congrArg (fun x => x.2) hcon) (by simp)
        | none =>
          intro hrun
          obtain ⟨hsN, hsS, hsL, hsNew, hsG, hsU⟩ :=
            addNode_success_shape hA tA _ _ _ _ h' t' hadd
          have hI1' : ∀ q, q < h0.length → nodeAt h' q = nodeAt h0 q := by
            intro q hq
            have hmem : q ∉ tA.nodes := by
              intro hcon
              exact absurd (hI2 q hcon) (Nat.not_le_of_lt hq)
            rw [hsU q (Nat.lt_of_lt_of_le hq hI3) hmem]
            exact hI1 q hq
          have hI2' : ∀ q ∈ t'.nodes, h0.length ≤ q := by
            intro q hq
            rw [hsN] at hq
            rcases List.mem_append.mp hq with hq | hq
            · exact hI2 q hq
            · rcases List.mem_singleton.mp hq with rfl
              exact hI3
          have hI3' : h0.length ≤ h'.length := by
            rw [hsL]
            exact Nat.le_succ_of_le hI3
          obtain ⟨c1, c2, c3, c4, c5⟩ := ih h' t' h2 t2 hrun
            (fun q hq => hrest q (List.mem_cons_of_mem p hq)) hI1' hI2' hI3'
          refine ⟨?_, ?_, ?_, ?_, ?_⟩
          · rw [c1, hsS]
          · rw [c2, hsN]
            have hx : (tA.nodes ++ [hA.length]).length
                = tA.nodes.length + 1 := by simp
            rw [hx]
            simp only [List.length_cons]
            omega
          · intro i hi
            cases i with
            | zero =>
              have hlt : tA.nodes.length < t'.nodes.length := by
                rw [hsN]
                simp
              have hidx : t2.nodes.getD (tA.nodes.length + 0) 0
                  = t'.nodes.getD tA.nodes.length 0 := by
                rw [Nat.add_zero]
                exact c4 tA.nodes.length hlt
              have hval : t'.nodes.getD tA.nodes.length 0 = hA.length := by
                rw [hsN]
                simp [List.getD, List.getElem?_append_right (Nat.le_refl _)]
              rw [hidx, hval]
              constructor
              · exact hI3
              · have hlt2 : hA.length < h'.length := by
                  rw [hsL]
                  exact Nat.lt_succ_self _
                rw [c5 hA.length hlt2, hsNew, hnp]
                simp [List.getD]
            | succ i' =>
              have hi' : i' < rest'.length := by
                simp only [List.length_cons] at hi
                omega
              have hc3 := c3 i' hi'
              have hidx : tA.nodes.length + (i' + 1)
                  = t'.nodes.length + i' := by
                rw [hsN]
                simp only [List.length_append, List.length_singleton]
                omega
              rw [hidx]
              simpa using hc3
          · intro i hi
            have hlt : i < t'.nodes.length := by
              rw [hsN]
              simp only [List.length_append, List.length_singleton]
              omega
            rw [c4 i hlt]
            rw [hsN]
            simp [List.getD, List.getElem?_append_left hi]
          · intro q hq
            have hlt : q < h'.length := by
              rw [hsL]
              omega
            rw [c5 q hlt]
            exact hsG q hq

/-- Claim C7, amended: clone copies the stores map of the original by
reference, but re-registers every node of the node list - Source,
Processor, Sink and Store alike - from its supplier: each clone node is a
freshly allocated cell (its pointer at or above the original heap length)
that copies the original's name, type and supplier and carries no
processor instance, so store nodes of the clone are fresh too, not the
existing store nodes of the original. -/
theorem clone_shares_storemap_reregisters_nodes
    (h : Heap) (t : Topo) (h2 : Heap) (t2 : Topo)
    (hwf : ∀ p ∈ t.nodes, p < h.length)
    (hc : clone h t = (h2, some t2)) :
    t2.stores = t.stores
    ∧ t2.nodes.length = t.nodes.length
    ∧ ∀ i, i < t.nodes.length →
        h.length ≤ t2.nodes.getD i 0
        ∧ gfields (nodeAt h2 (t2.nodes.getD i 0))
            = ((nodeAt h (t.nodes.getD i 0)).name,
               (nodeAt h (t.nodes.getD i 0)).typ,
               (nodeAt h (t.nodes.getD i 0)).supplier, none) := by
  obtain ⟨c1, c2, c3, _, _⟩ := cloneLoop_spec h t.nodes h
    { stores := t.stores } h2 t2 hc hwf
    (fun q _ => rfl) (fun p hp => absurd hp (List.not_mem_nil p))
    (Nat.le_refl _)
  refine ⟨c1, by simpa using c2, ?_⟩
  intro i hi
  have hc3 := c3 i hi
  simpa using hc3

/-- The heap after cloning the claim C7 topology: the original store cell
followed by the re-registered fresh cell. -/
def c7CloneHeap : Heap :=
  [{ name := "st", typ := NType.store, supplier := 3, processorInst := some 5 },
   { name := "st", typ := NType.store, supplier := 3 }]

/-- The cloned topology of the claim C7 input. -/
def c7CloneTopo : Topo :=
  { nodes := [1] }

/-- Witness for the amended claim C7 at the store-node topology of the
counterexample. -/
theorem clone_shares_storemap_reregisters_nodes_witness :
    c7CloneTopo.stores = c7Topo.stores
    ∧ c7CloneTopo.nodes.length = c7Topo.nodes.length
    ∧ ∀ i, i < c7Topo.nodes.length →
        c7Heap.length ≤ c7CloneTopo.nodes.getD i 0
        ∧ gfields (nodeAt c7CloneHeap (c7CloneTopo.nodes.getD i 0))
            = ((nodeAt c7Heap (c7Topo.nodes.getD i 0)).name,
               (nodeAt c7Heap (c7Topo.nodes.getD i 0)).typ,
               (nodeAt c7Heap (c7Topo.nodes.getD i 0)).supplier, none) :=
  clone_shares_storemap_reregisters_nodes c7Heap c7Topo c7CloneHeap
    c7CloneTopo (by decide) (by decide)

end Streams
